import Mathlib

/-!
# Verification of the `.datc64` binary-format analysis tool

Shallow embedding of `scripts/analyze_datc64_format.py` over `List Nat`
byte buffers (each element models one byte, `< 256`).  Machine integers
are modelled as `Nat`/`Int`; Python's floor division `//` on possibly
negative operands is `Int.fdiv`; Python slices are modelled with
`List.drop`/`List.take` (which clamp exactly as Python slices do);
`struct.unpack` on a slice that is too short raises, modelled by
`Option` (`none` = a raised exception).
-/

set_option autoImplicit false

namespace Datc64

/-- Little-endian value of a list of bytes: `bytes[0] + 256*bytes[1] + ...`. -/
def bytesLE : List Nat → Nat
  | [] => 0
  | b :: rest => b + 256 * bytesLE rest

/-- `struct.unpack` of an `n`-byte little-endian unsigned integer from
`data[off : off+n]`.  Python slicing clamps, and `struct.unpack` raises
(`none`) unless the slice has exactly `n` bytes. -/
def readLE? (data : List Nat) (off n : Nat) : Option Nat :=
  if ((data.drop off).take n).length = n then some (bytesLE ((data.drop off).take n))
  else none

/-- Linear scan of `bytes.find`: first index `i ≥ start` (within `fuel`
attempts) at which the pattern occurs. -/
def findFrom (data pat : List Nat) (start fuel : Nat) : Option Nat :=
  match fuel with
  | 0 => none
  | fuel + 1 =>
    if (data.drop start).take pat.length = pat then some start
    else findFrom data pat (start + 1) fuel

/-- Python `data.find(pat)`: index of the first occurrence of `pat` in
`data`, or `none` (Python's `-1`). -/
def bytesFind (data pat : List Nat) : Option Nat :=
  findFrom data pat 0 (data.length + 1)

/-- `DAT_MAGIC_NUMBER = b'\xBB' * 8` (line 15 of the script). -/
def DAT_MAGIC : List Nat := List.replicate 8 0xBB

/-- The dict returned by `analyze_header` (lines 85–95).  Fields that the
script sets to Python `None` in the not-found branch are `Option`s.
`table_length`, `record_length` and `data_section_size` are `Int` because
they can be negative when the magic occurs at an offset below 4. -/
structure HeaderInfo where
  file_size : Nat
  row_count : Nat
  magic_offset : Option Nat
  table_offset : Nat
  table_length : Option Int
  record_length : Option Int
  data_section_offset : Option Nat
  data_section_size : Option Int
deriving DecidableEq, Repr

/-- `analyze_header` (lines 55–95).  `none` models the `struct.error`
raised by `struct.unpack('<I', data[0:4])` on a buffer shorter than 4
bytes.  Note the source computes `magic_offset + 8 if magic_offset else
None`, so a magic number at offset 0 (falsy) yields `data_section_offset
= None`; and `record_length` is Python floor division `//`, hence
`Int.fdiv`. -/
def analyzeHeader (data : List Nat) : Option HeaderInfo :=
  match readLE? data 0 4 with
  | none => none
  | some row_count =>
    match bytesFind data DAT_MAGIC with
    | none =>
      some { file_size := data.length, row_count := row_count,
             magic_offset := none, table_offset := 4,
             table_length := none, record_length := none,
             data_section_offset := none, data_section_size := none }
    | some m =>
      let table_length : Int := (m : Int) - 4
      let record_length : Int :=
        if 0 < row_count then table_length.fdiv row_count else 0
      some { file_size := data.length, row_count := row_count,
             magic_offset := some m, table_offset := 4,
             table_length := some table_length,
             record_length := some record_length,
             data_section_offset := if m ≠ 0 then some (m + 8) else none,
             data_section_size := some ((data.length : Int) - m - 8) }

/-- Classification that `infer_column_types` prints for one examined
8-byte stride of the first record (lines 166–216).  Each constructor
carries the 64-bit value `v` read at the stride.  The source further
splits the plain pointer case into string-pointer / data-pointer by
probing the payload; no classification or control-flow decision depends
on that split, so it is kept as a single `pointer` case here. -/
inductive Classification where
  | listPointer (count offset : Nat) (preview : Option (List Nat))
  | pointer (v : Nat)
  | nullVal (v : Nat)
  | scalar (v lo hi : Nat)
deriving DecidableEq, Repr

/-- The hardcoded null-marker set of line 164:
`(0, 0xFEFEFEFEFEFEFEFE, 0xA6, 0xA600000000000000)`. -/
def nullPatterns : List Nat :=
  [0, 0xFEFEFEFEFEFEFEFE, 0xA6, 0xA600000000000000]

/-- The 64-bit value carried by a classification. -/
def classValue : Classification → Nat
  | .listPointer c _ _ => c
  | .pointer v => v
  | .nullVal v => v
  | .scalar v _ _ => v

/-- Whether a classification is a pointer kind (list pointer, or the
string/data pointer branch). -/
def isPointerClass : Classification → Bool
  | .listPointer _ _ _ => true
  | .pointer _ => true
  | .nullVal _ => false
  | .scalar _ _ _ => false

/-- Payload preview of the list-pointer branch (lines 176–179): only
when `next + v*8 <= data_section_size`, the sample
`data_section[next : next + min(64, v*8)]` is shown. -/
def listPreview (ds : List Nat) (dss : Int) (v next : Nat) : Option (List Nat) :=
  if (next : Int) + v * 8 ≤ dss then some ((ds.drop next).take (min 64 (v * 8)))
  else none

/-- One iteration of the body of the `while` loop of
`infer_column_types` (lines 154–216) at stride `off`:
`none` models a raised `struct.error` (a slice shorter than requested);
`some none` means the trailing fragment shorter than 8 bytes, which the
source skips without classifying; `some (some c)` is the printed
classification.  The branch order is exactly the source's: pointer test
first (line 161), the list-pointer sub-case (lines 169–182), then the
null test (line 208), else scalar with the two `u32` halves
(lines 211–216). -/
def strideStep (fr ds : List Nat) (dss rl : Int) (off : Nat) :
    Option (Option Classification) :=
  if (off : Int) + 8 ≤ rl then
    match readLE? fr off 8 with
    | none => none
    | some v =>
      if 0 < v ∧ (v : Int) < dss then
        if (off : Int) + 16 ≤ rl then
          match readLE? fr (off + 8) 8 with
          | none => none
          | some next =>
            if 0 < next ∧ (next : Int) < dss then
              some (some (.listPointer v next (listPreview ds dss v next)))
            else some (some (.pointer v))
        else some (some (.pointer v))
      else if v ∈ nullPatterns then some (some (.nullVal v))
      else
        match readLE? fr off 4, readLE? fr (off + 4) 4 with
        | some lo, some hi => some (some (.scalar v lo hi))
        | _, _ => none
  else some none

/-- The `while offset < record_length` loop of `infer_column_types`
(lines 154–219), producing the list of `(offset, classification)` pairs
printed.  Every iteration advances `offset` by exactly 8: the
list-pointer branch runs `offset += 8; continue` (lines 180–182), and
the `continue` skips the shared `offset += 8` at line 218, so its net
advance equals the other branches' — 8 bytes, not 16. -/
def inferLoop (fr ds : List Nat) (dss rl : Int) (off : Nat) :
    Option (List (Nat × Classification)) :=
  if (off : Int) < rl then
    match strideStep fr ds dss rl off with
    | none => none
    | some none => inferLoop fr ds dss rl (off + 8)
    | some (some c) => (inferLoop fr ds dss rl (off + 8)).map (fun t => (off, c) :: t)
  else some []
termination_by (rl - off).toNat
decreasing_by
  all_goals
    have : ((off + 8 : Nat) : Int) = (off : Int) + 8 := by push_cast; ring
    omega

/-- The strides the loop classifies: offsets `0, 8, 16, …` (from `off`)
with at least 8 bytes before `rl`. -/
def strideOffsets (rl : Int) (off : Nat) : List Nat :=
  if (off : Int) < rl then
    if (off : Int) + 8 ≤ rl then off :: strideOffsets rl (off + 8)
    else strideOffsets rl (off + 8)
  else []
termination_by (rl - off).toNat
decreasing_by
  all_goals
    have : ((off + 8 : Nat) : Int) = (off : Int) + 8 := by push_cast; ring
    omega

/-- Python `l[0:stop]` where `stop` may be negative (counted from the
end) and clamps. -/
def pyTakeTo (l : List Nat) (stop : Int) : List Nat :=
  if 0 ≤ stop then l.take stop.toNat
  else l.take ((l.length : Int) + stop).toNat

/-- Result of `infer_column_types`: `skipped` is the early `return` when
`not info['magic_offset'] or not info['record_length']` (line 134,
Python falsiness: `None` or `0`); `error` models a raised exception;
`report` is a completed run with its classifications. -/
inductive InferResult where
  | skipped
  | error
  | report (trace : List (Nat × Classification))
deriving DecidableEq, Repr

/-- `infer_column_types(file_path, info)` (lines 130–219).  Mirrors the
source: `table_data = data[4:magic_offset]`, `first_row =
table_data[0:record_length]`, `data_section =
data[data_section_offset:]` (a `None` start slices from 0 in Python),
and the comparison `0 < v < info['data_section_size']` raises if
`data_section_size` is `None` (unreachable for `analyze_header`
output when the guard passed). -/
def inferColumnTypes (data : List Nat) (info : HeaderInfo) : InferResult :=
  match info.magic_offset, info.record_length with
  | some m, some rl =>
    if m = 0 ∨ rl = 0 then .skipped
    else
      match info.data_section_size with
      | none => .error
      | some dss =>
        let dssStart := info.data_section_offset.getD 0
        let table_data := (data.drop 4).take (m - 4)
        let first_row := pyTakeTo table_data rl
        let data_section := data.drop dssStart
        match inferLoop first_row data_section dss rl 0 with
        | none => .error
        | some t => .report t
  | _, _ => .skipped

/-- Lowercase hex digit, as in Python `%x` formatting. -/
def hexDigit (n : Nat) : Char :=
  if n < 10 then Char.ofNat (48 + n) else Char.ofNat (87 + n)

/-- Python `f"{b:02x}"` for a byte value. -/
def hexByte (b : Nat) : String :=
  String.mk [hexDigit (b / 16 % 16), hexDigit (b % 16)]

/-- Python `f"{i:08x}"` (faithful for `i < 2^32`, the only values a
hexdump of an in-memory buffer produces). -/
def hex8 (n : Nat) : String :=
  String.mk (((List.range 8).reverse).map fun k => hexDigit (n / 16 ^ k % 16))

/-- One cell of a hexdump row (lines 41–47): position `i + j`.  Inside
the window it reads `data[i + j]` (an out-of-bounds read would be an
`IndexError`, modelled by `none`); past `end` it pads with three spaces
and contributes nothing to the ASCII column. -/
def hexdumpCell (data : List Nat) (endIdx i j : Nat) : Option (String × String) :=
  if i + j < endIdx then
    match data[i + j]? with
    | some b =>
      some (hexByte b ++ " ",
            if 32 ≤ b ∧ b < 127 then String.mk [Char.ofNat b] else ".")
    | none => none
  else some ("   ", "")

/-- One hexdump line (lines 34–50): offset label, `width` hex cells, and
the `|ascii|` column. -/
def hexdumpRow (data : List Nat) (endIdx i width : Nat) : Option String :=
  ((List.range width).mapM (hexdumpCell data endIdx i)).map fun cells =>
    hex8 i ++ "  " ++ String.join (cells.map Prod.fst) ++ " |" ++
      String.join (cells.map Prod.snd) ++ "|"

/-- Python `range(start, stop, step)` for a positive step. -/
def rangeStep (start stop step : Nat) : List Nat :=
  (List.range ((stop - start + step - 1) / step)).map fun k => start + k * step

/-- `hexdump(data, offset, length, width)` (lines 18–52).  The end of
the dumped window is clamped at `min(offset + length, len(data))`
(line 32). -/
def hexdump (data : List Nat) (offset length width : Nat) : Option String :=
  let endIdx := min (offset + length) data.length
  ((rangeStep offset endIdx width).mapM fun i => hexdumpRow data endIdx i width).map
    fun lines => String.intercalate "\n" lines

/-! ## Concrete buffers used in counterexamples and witnesses -/

/-- `row_count = 3`, a 10-byte table (not divisible by 3), then the magic. -/
def W1 : List Nat := [3, 0, 0, 0] ++ List.replicate 10 0 ++ DAT_MAGIC

/-- The header `analyze_header` returns for `W1`. -/
def W1info : HeaderInfo :=
  ⟨22, 3, some 14, 4, some 10, some 3, some 22, some 0⟩

/-- Sixteen `0xBB` bytes: the magic occurs already at offset 0. -/
def BBdata : List Nat := List.replicate 16 0xBB

/-- The header `analyze_header` returns for `BBdata`: the magic is
found at offset 0, so `table_length = -4`, `record_length =
fdiv (-4) 0xBBBBBBBB = -1`, and `data_section_offset` is `None`. -/
def BBinfo : HeaderInfo :=
  ⟨16, 0xBBBBBBBB, some 0, 4, some (-4), some (-1), none, some 8⟩

/-- A five-byte buffer with no magic sentinel. -/
def C2buf : List Nat := [1, 2, 3, 4, 5]

/-- A zero-row file: `row_count = 0`, empty table, magic at offset 4,
empty payload. -/
def W5 : List Nat := [0, 0, 0, 0] ++ DAT_MAGIC

/-- The header `analyze_header` returns for `W5`. -/
def W5info : HeaderInfo :=
  ⟨12, 0, some 4, 4, some 0, some 0, some 12, some 0⟩

/-- A 24-byte record: a list-pointer pair `(8, 16)` followed by the
value 5 — used to exhibit the stride-advance behaviour. -/
def C3row : List Nat :=
  [8, 0, 0, 0, 0, 0, 0, 0] ++ [16, 0, 0, 0, 0, 0, 0, 0] ++ [5, 0, 0, 0, 0, 0, 0, 0]

/-- An 8-byte record holding the single in-range value 5. -/
def C6row : List Nat := [5, 0, 0, 0, 0, 0, 0, 0]

/-- A 16-byte record: `08 00…` then the value 3 — the C7 scenario. -/
def C7row : List Nat :=
  [8, 0, 0, 0, 0, 0, 0, 0] ++ [3, 0, 0, 0, 0, 0, 0, 0]

/-- An 8-byte record holding the null-marker byte `0xA6`. -/
def C10row : List Nat := [0xA6, 0, 0, 0, 0, 0, 0, 0]

/-- A whole file: `row_count = 2`, two 16-byte records, magic, 16-byte
payload.  First record: the scalar `0x101` then a null (zero) field. -/
def W8 : List Nat :=
  [2, 0, 0, 0] ++ ([1, 1, 0, 0, 0, 0, 0, 0] ++ List.replicate 8 0) ++
    List.replicate 16 0 ++ DAT_MAGIC ++ List.replicate 16 0

/-- The header `analyze_header` returns for `W8`. -/
def W8info : HeaderInfo :=
  ⟨60, 2, some 36, 4, some 32, some 16, some 44, some 16⟩

/-- A three-byte buffer (one printable byte, two non-printable) for the
hexdump witness. -/
def C9buf : List Nat := [72, 200, 10]

/-! ## Properties of the byte-scan primitives -/

theorem findFrom_some {data pat : List Nat} {start fuel m : Nat}
    (h : findFrom data pat start fuel = some m) :
    start ≤ m ∧ (data.drop m).take pat.length = pat ∧
      ∀ j, start ≤ j → j < m → (data.drop j).take pat.length ≠ pat := by
  induction fuel generalizing start with
  | zero => simp [findFrom] at h
  | succ n ih =>
    rw [findFrom] at h
    split at h
    · rename_i hmatch
      cases h
      exact ⟨le_refl _, hmatch, fun j h1 h2 => absurd h1 (by omega)⟩
    · rename_i hmatch
      obtain ⟨h1, h2, h3⟩ := ih h
      refine ⟨by omega, h2, fun j hj1 hj2 => ?_⟩
      rcases Nat.eq_or_lt_of_le hj1 with rfl | hlt
      · exact hmatch
      · exact h3 j hlt hj2

theorem bytesFind_some {data pat : List Nat} {m : Nat}
    (h : bytesFind data pat = some m) :
    (data.drop m).take pat.length = pat ∧
      ∀ j, j < m → (data.drop j).take pat.length ≠ pat := by
  obtain ⟨_, h2, h3⟩ := findFrom_some h
  exact ⟨h2, fun j hj => h3 j (Nat.zero_le j) hj⟩

/-- A located magic number lies wholly inside the buffer. -/
theorem magic_bound {data : List Nat} {m : Nat}
    (h : (data.drop m).take DAT_MAGIC.length = DAT_MAGIC) :
    m + 8 ≤ data.length := by
  have hlen := congrArg List.length h
  simp [DAT_MAGIC] at hlen
  omega

theorem readLE?_eq_some {data : List Nat} {off n : Nat} (h : off + n ≤ data.length) :
    readLE? data off n = some (bytesLE ((data.drop off).take n)) := by
  unfold readLE?
  rw [if_pos]
  simp
  omega

theorem readLE?_isSome_of_le {data : List Nat} {off n : Nat}
    (h : off + n ≤ data.length) : ∃ v, readLE? data off n = some v :=
  ⟨_, readLE?_eq_some h⟩

theorem readLE?_length {data : List Nat} {off n v : Nat}
    (h : readLE? data off n = some v) :
    ((data.drop off).take n).length = n ∧ v = bytesLE ((data.drop off).take n) := by
  unfold readLE? at h
  split at h
  · rename_i hl
    cases h
    exact ⟨hl, rfl⟩
  · cases h

theorem bytesLE_append (a b : List Nat) :
    bytesLE (a ++ b) = bytesLE a + 256 ^ a.length * bytesLE b := by
  induction a with
  | nil => simp [bytesLE]
  | cons x xs ih => simp [bytesLE, ih]; ring

theorem bytesLE_lt {a : List Nat} (h : ∀ x ∈ a, x < 256) :
    bytesLE a < 256 ^ a.length := by
  induction a with
  | nil => simp [bytesLE]
  | cons x xs ih =>
    have hx := h x (List.mem_cons_self x xs)
    have hxs := ih fun y hy => h y (List.mem_cons_of_mem x hy)
    simp only [bytesLE, List.length_cons, pow_succ]
    calc x + 256 * bytesLE xs < 256 + 256 * bytesLE xs := by omega
    _ ≤ 256 * (bytesLE xs + 1) := by ring_nf; omega
    _ ≤ 256 * 256 ^ xs.length := by
        have : bytesLE xs + 1 ≤ 256 ^ xs.length := hxs
        exact Nat.mul_le_mul_left _ this
    _ = 256 ^ xs.length * 256 := by ring

/-- Splitting an 8-byte little-endian read into its two 32-bit halves
(the `u32` values of lines 213–214). -/
theorem readLE?_split {data : List Nat} {off v : Nat}
    (hB : ∀ b ∈ data, b < 256) (h : readLE? data off 8 = some v) :
    readLE? data off 4 = some (v % 2 ^ 32) ∧
      readLE? data (off + 4) 4 = some (v / 2 ^ 32) := by
  obtain ⟨hlen, hv⟩ := readLE?_length h
  set s := (data.drop off).take 8 with hs
  have hd : off + 8 ≤ data.length := by
    rw [hs, List.length_take, List.length_drop] at hlen
    omega
  have hsplit : s = s.take 4 ++ s.drop 4 := (List.take_append_drop 4 s).symm
  have h1 : (data.drop off).take 4 = s.take 4 := by
    rw [hs, List.take_take]
    norm_num
  have h2 : s.drop 4 = (data.drop (off + 4)).take 4 := by
    rw [hs, List.drop_take, List.drop_drop]
  have hlen4 : (s.take 4).length = 4 := by simp [hlen]
  have hmem : ∀ x ∈ s, x < 256 := fun x hx =>
    hB x (List.drop_subset off data (List.take_subset 8 (data.drop off) hx))
  have hlt : bytesLE (s.take 4) < 2 ^ 32 := by
    have := bytesLE_lt
      (show ∀ x ∈ s.take 4, x < 256 from fun x hx => hmem x (List.take_subset _ _ hx))
    rw [hlen4] at this
    norm_num at this ⊢
    exact this
  have hvsum : v = bytesLE (s.take 4) + 2 ^ 32 * bytesLE (s.drop 4) := by
    rw [hv]
    nth_rewrite 1 [hsplit]
    rw [bytesLE_append, hlen4]
    norm_num
  constructor
  · rw [readLE?_eq_some (by omega), h1]
    congr 1
    omega
  · rw [readLE?_eq_some (by omega), ← h2]
    congr 1
    omega

/-! ## Inversion of `analyzeHeader` -/

/-- Everything `analyze_header` guarantees when it locates the magic. -/
theorem analyzeHeader_magic_some {data : List Nat} {info : HeaderInfo} {m : Nat}
    (hh : analyzeHeader data = some info) (hm : info.magic_offset = some m) :
    bytesFind data DAT_MAGIC = some m ∧
    readLE? data 0 4 = some info.row_count ∧
    info.file_size = data.length ∧
    info.table_length = some ((m : Int) - 4) ∧
    info.record_length =
      some (if 0 < info.row_count then ((m : Int) - 4).fdiv info.row_count else 0) ∧
    info.data_section_offset = (if m ≠ 0 then some (m + 8) else none) ∧
    info.data_section_size = some ((data.length : Int) - m - 8) := by
  unfold analyzeHeader at hh
  split at hh
  · cases hh
  · rename_i rc hrc
    split at hh
    · cases hh
      cases hm
    · rename_i m' hfind
      cases hh
      simp only at hm
      cases hm
      simp_all

/-! ## Properties of one inference stride -/

/-- With at least 8 bytes left before `record_length`, the loop body
either raises or classifies — it never skips. -/
theorem strideStep_shape {fr ds : List Nat} {dss rl : Int} {off : Nat}
    (h8 : (off : Int) + 8 ≤ rl) :
    strideStep fr ds dss rl off = none ∨
      ∃ c, strideStep fr ds dss rl off = some (some c) := by
  unfold strideStep
  rw [if_pos h8]
  split
  · exact Or.inl rfl
  · split
    · split
      · split
        · exact Or.inl rfl
        · split
          · exact Or.inr ⟨_, rfl⟩
          · exact Or.inr ⟨_, rfl⟩
      · exact Or.inr ⟨_, rfl⟩
    · split
      · exact Or.inr ⟨_, rfl⟩
      · split
        · exact Or.inr ⟨_, rfl⟩
        · exact Or.inl rfl

/-- The loop body skips without classifying exactly on the trailing
fragment shorter than 8 bytes (the guard of line 156). -/
theorem strideStep_skip_iff {fr ds : List Nat} {dss rl : Int} {off : Nat} :
    strideStep fr ds dss rl off = some none ↔ ¬((off : Int) + 8 ≤ rl) := by
  constructor
  · intro h h8
    rcases @strideStep_shape fr ds dss rl off h8 with hc | ⟨c, hc⟩ <;>
      rw [h] at hc <;> cases hc
  · intro h8
    unfold strideStep
    rw [if_neg h8]

/-- What holds of every classification the loop body emits. -/
theorem strideStep_class_spec {fr ds : List Nat} {dss rl : Int} {off : Nat}
    {c : Classification}
    (h : strideStep fr ds dss rl off = some (some c)) :
    (off : Int) + 8 ≤ rl ∧
    readLE? fr off 8 = some (classValue c) ∧
    (isPointerClass c = true ↔ (0 < classValue c ∧ ((classValue c : Nat) : Int) < dss)) ∧
    (∀ v, c = .nullVal v → v ∈ nullPatterns ∧ ¬(0 < v ∧ (v : Int) < dss)) ∧
    (∀ v lo hi, c = .scalar v lo hi →
      ¬(0 < v ∧ (v : Int) < dss) ∧ v ∉ nullPatterns ∧
      readLE? fr off 4 = some lo ∧ readLE? fr (off + 4) 4 = some hi) := by
  unfold strideStep at h
  split at h
  case isFalse => cases h
  case isTrue h8 =>
  split at h
  case h_1 => cases h
  case h_2 v hv =>
  split at h
  case isTrue hptr =>
    split at h
    case isTrue h16 =>
      split at h
      case h_1 => cases h
      case h_2 next hnext =>
        split at h <;> cases h <;>
          simp_all [classValue, isPointerClass]
    case isFalse h16 =>
      cases h
      simp_all [classValue, isPointerClass]
  case isFalse hptr =>
    split at h
    case isTrue hnull =>
      cases h
      simp_all [classValue, isPointerClass]
    case isFalse hnull =>
      split at h
      case h_1 lo hi hlo hhi =>
        cases h
        simp_all [classValue, isPointerClass]
      case h_2 => cases h

/-- The loop body never raises when the first record really has
`record_length` bytes. -/
theorem strideStep_total {fr ds : List Nat} {dss rl : Int} {off : Nat}
    (hlen : rl ≤ (fr.length : Int)) (h8 : (off : Int) + 8 ≤ rl) :
    ∃ c, strideStep fr ds dss rl off = some c := by
  have hfr8 : off + 8 ≤ fr.length := by omega
  obtain ⟨v, hv⟩ := readLE?_isSome_of_le hfr8
  unfold strideStep
  rw [if_pos h8, hv]
  dsimp only
  split
  case isTrue hptr =>
    split
    case isTrue h16 =>
      have hfr16 : (off + 8) + 8 ≤ fr.length := by omega
      obtain ⟨next, hnext⟩ := readLE?_isSome_of_le hfr16
      rw [hnext]
      dsimp only
      split <;> exact ⟨_, rfl⟩
    case isFalse h16 => exact ⟨_, rfl⟩
  case isFalse hptr =>
    split
    case isTrue => exact ⟨_, rfl⟩
    case isFalse =>
      obtain ⟨lo, hlo⟩ := readLE?_isSome_of_le (show off + 4 ≤ fr.length by omega)
      obtain ⟨hi, hhi⟩ := readLE?_isSome_of_le (show (off + 4) + 4 ≤ fr.length by omega)
      rw [hlo, hhi]
      exact ⟨_, rfl⟩

/-! ## Properties of the inference loop -/

/-- The loop runs to completion (raises no exception) whenever the first
record really has `record_length` bytes. -/
theorem inferLoop_isSome (fr ds : List Nat) (dss rl : Int)
    (hlen : rl ≤ (fr.length : Int)) (off : Nat) :
    ∃ t, inferLoop fr ds dss rl off = some t := by
  rw [inferLoop]
  split
  case isTrue hlt =>
    by_cases h8 : (off : Int) + 8 ≤ rl
    · obtain ⟨c, hc⟩ := strideStep_total hlen h8
      rw [hc]
      obtain ⟨t, ht⟩ := inferLoop_isSome fr ds dss rl hlen (off + 8)
      cases c with
      | none => exact ⟨t, ht⟩
      | some c => exact ⟨(off, c) :: t, by rw [ht]; rfl⟩
    · rw [strideStep_skip_iff.2 h8]
      exact inferLoop_isSome fr ds dss rl hlen (off + 8)
  case isFalse hlt => exact ⟨[], rfl⟩
termination_by (rl - off).toNat
decreasing_by
  all_goals
    have : ((off + 8 : Nat) : Int) = (off : Int) + 8 := by push_cast; ring
    omega

/-- Per-entry soundness of the produced trace: each printed entry sits
at a fully-contained stride, carries the 8-byte value read there, is a
pointer kind exactly under the line-161 test, a null only for the
line-164 patterns out of pointer range, and a scalar only out of range,
off the patterns, and with the two `u32` halves read at the stride. -/
theorem inferLoop_mem {fr ds : List Nat} {dss rl : Int} (off : Nat)
    {t : List (Nat × Classification)}
    (h : inferLoop fr ds dss rl off = some t) :
    ∀ p ∈ t, ((p.1 : Int) + 8 ≤ rl) ∧
      readLE? fr p.1 8 = some (classValue p.2) ∧
      (isPointerClass p.2 = true ↔
        (0 < classValue p.2 ∧ ((classValue p.2 : Nat) : Int) < dss)) ∧
      (∀ v, p.2 = .nullVal v → v ∈ nullPatterns ∧ ¬(0 < v ∧ (v : Int) < dss)) ∧
      (∀ v lo hi, p.2 = .scalar v lo hi →
        ¬(0 < v ∧ (v : Int) < dss) ∧ v ∉ nullPatterns ∧
        readLE? fr p.1 4 = some lo ∧ readLE? fr (p.1 + 4) 4 = some hi) := by
  rw [inferLoop] at h
  split at h
  case isTrue hlt =>
    split at h
    case h_1 => cases h
    case h_2 hstep =>
      exact fun p hp => inferLoop_mem (off + 8) h p hp
    case h_3 c hstep =>
      rw [Option.map_eq_some'] at h
      obtain ⟨t', ht', rfl⟩ := h
      intro p hp
      rcases List.mem_cons.1 hp with rfl | hp'
      · obtain ⟨h8, hread, hiff, hnull, hscalar⟩ := strideStep_class_spec hstep
        exact ⟨h8, hread, hiff, hnull, hscalar⟩
      · exact inferLoop_mem (off + 8) ht' p hp'
  case isFalse hlt =>
    cases h
    intro p hp
    cases hp
termination_by (rl - off).toNat
decreasing_by
  all_goals
    have : ((off + 8 : Nat) : Int) = (off : Int) + 8 := by push_cast; ring
    omega

/-- The trace covers exactly the 8-byte strides of the loop: offsets
advance by 8 after every classification — including the list-pointer
branch, whose `continue` skips the shared increment. -/
theorem inferLoop_map_fst {fr ds : List Nat} {dss rl : Int} (off : Nat)
    {t : List (Nat × Classification)}
    (h : inferLoop fr ds dss rl off = some t) :
    t.map Prod.fst = strideOffsets rl off := by
  rw [inferLoop] at h
  rw [strideOffsets]
  split at h
  case isTrue hlt =>
    rw [if_pos hlt]
    split at h
    case h_1 => cases h
    case h_2 hstep =>
      rw [if_neg (strideStep_skip_iff.1 hstep)]
      exact inferLoop_map_fst (off + 8) h
    case h_3 c hstep =>
      have h8 : (off : Int) + 8 ≤ rl := (strideStep_class_spec hstep).1
      rw [if_pos h8]
      rw [Option.map_eq_some'] at h
      obtain ⟨t', ht', rfl⟩ := h
      simp only [List.map_cons]
      rw [inferLoop_map_fst (off + 8) ht']
  case isFalse hlt =>
    cases h
    rw [if_neg hlt]
    rfl
termination_by (rl - off).toNat
decreasing_by
  all_goals
    have : ((off + 8 : Nat) : Int) = (off : Int) + 8 := by push_cast; ring
    omega

/-! ## Properties of the hexdump -/

theorem mapM_option_isSome {α β : Type} (f : α → Option β) (l : List α)
    (h : ∀ a ∈ l, (f a).isSome) : (l.mapM f).isSome := by
  induction l with
  | nil => rfl
  | cons a l ih =>
    rw [List.mapM_cons]
    rcases hf : f a with _ | b
    · exact absurd (hf ▸ h a (List.mem_cons_self a l)) (by simp)
    · have hl := ih fun x hx => h x (List.mem_cons_of_mem a hx)
      rcases hml : l.mapM f with _ | bs
      · rw [hml] at hl
        cases hl
      · simp [hf, hml]

theorem hexdumpCell_isSome {data : List Nat} {endIdx : Nat} (i j : Nat)
    (h : endIdx ≤ data.length) : (hexdumpCell data endIdx i j).isSome := by
  unfold hexdumpCell
  split
  case isTrue hij =>
    have hlt : i + j < data.length := by omega
    rw [List.getElem?_eq_getElem hlt]
    rfl
  case isFalse hij => rfl

theorem hexdumpRow_isSome {data : List Nat} {endIdx : Nat} (i width : Nat)
    (h : endIdx ≤ data.length) : (hexdumpRow data endIdx i width).isSome := by
  unfold hexdumpRow
  have hall := mapM_option_isSome (hexdumpCell data endIdx i) (List.range width)
    fun j _ => hexdumpCell_isSome i j h
  rcases hm : (List.range width).mapM (hexdumpCell data endIdx i) with _ | cells
  · rw [hm] at hall
    cases hall
  · rfl

/-! ## Claim C2 -/

/-- **C2.** For every input buffer that does not contain the 8-byte
magic sentinel `BB BB BB BB BB BB BB BB`, header location fails —
whatever `analyze_header` returns carries no header: `magic_offset`,
`table_length`, `record_length`, `data_section_offset` and
`data_section_size` are all `None`.  The all-`None` branch (lines
74–79) is the script's representation of `FormatError(NoMagicFound)`;
no header result is produced. -/
theorem no_magic_no_header (data : List Nat)
    (hno : ∀ i, (data.drop i).take 8 ≠ DAT_MAGIC) :
    ∀ info, analyzeHeader data = some info →
      info.magic_offset = none ∧ info.table_length = none ∧
      info.record_length = none ∧ info.data_section_offset = none ∧
      info.data_section_size = none := by
  intro info hh
  unfold analyzeHeader at hh
  split at hh
  · cases hh
  · split at hh
    · cases hh
      exact ⟨rfl, rfl, rfl, rfl, rfl⟩
    · rename_i m hfind
      exfalso
      have h1 := (bytesFind_some hfind).1
      have h8 : (data.drop m).take 8 = DAT_MAGIC := by
        simpa [DAT_MAGIC] using h1
      exact hno m h8

/-- Witness for C2: the sentinel-free buffer `[1,2,3,4,5]` satisfies the
hypothesis, `analyze_header` does return on it, and every field of the
returned header is `None`. -/
theorem no_magic_no_header_witness :
    (∀ i, (C2buf.drop i).take 8 ≠ DAT_MAGIC) ∧
    (analyzeHeader C2buf).isSome ∧
    (∀ info, analyzeHeader C2buf = some info →
      info.magic_offset = none ∧ info.table_length = none ∧
      info.record_length = none ∧ info.data_section_offset = none ∧
      info.data_section_size = none) := by
  have hno : ∀ i, (C2buf.drop i).take 8 ≠ DAT_MAGIC := by
    intro i hEq
    have hlen := congrArg List.length hEq
    simp [C2buf, DAT_MAGIC] at hlen
    omega
  exact ⟨hno, by decide, no_magic_no_header C2buf hno⟩

/-! ## Claim C4 -/

/-- **C4 counterexample.** On sixteen `0xBB` bytes the sentinel also
occurs at offset 4, yet `analyze_header` reports `magic_offset = 0`:
the scan starts at offset 0, not 4, and `0 ≥ 4` is false. -/
theorem magic_at_zero_found :
    analyzeHeader BBdata = some BBinfo ∧ BBinfo.magic_offset = some 0 ∧
    (BBdata.drop 4).take 8 = DAT_MAGIC ∧ ¬(4 : Nat) ≤ 0 := by
  decide

/-- **C4 amended.** The `magic_offset` reported by header location is
the position of the first occurrence of the 8-byte sentinel anywhere in
the buffer — the scan starts at offset 0 (`data.find`, line 72), so
`magic_offset` may be less than 4 when an occurrence overlaps the
row-count field. -/
theorem magic_offset_first_occurrence_from_zero (data : List Nat)
    (info : HeaderInfo) (m : Nat)
    (hh : analyzeHeader data = some info) (hm : info.magic_offset = some m) :
    (data.drop m).take 8 = DAT_MAGIC ∧
      ∀ i < m, (data.drop i).take 8 ≠ DAT_MAGIC := by
  obtain ⟨hfind, -, -, -, -, -, -⟩ := analyzeHeader_magic_some hh hm
  obtain ⟨h1, h2⟩ := bytesFind_some hfind
  have hl : DAT_MAGIC.length = 8 := by simp [DAT_MAGIC]
  simp only [hl] at h1 h2
  exact ⟨h1, h2⟩

/-- Witness for C4 amended at `W1`, whose magic is at offset 14. -/
theorem magic_offset_first_occurrence_witness :
    analyzeHeader W1 = some W1info ∧ W1info.magic_offset = some 14 ∧
    ((W1.drop 14).take 8 = DAT_MAGIC ∧
      ∀ i < 14, (W1.drop i).take 8 ≠ DAT_MAGIC) := by
  exact ⟨by decide, by decide,
    magic_offset_first_occurrence_from_zero W1 W1info 14 (by decide) (by decide)⟩

/-! ## Claim C5 -/

/-- **C5 counterexample.** When the sentinel is located at offset 0,
the claimed `payload offset = magic_offset + 8 = 8` fails: the source's
`magic_offset + 8 if magic_offset else None` (line 93) treats offset 0
as falsy and reports `None`. -/
theorem payload_offset_none_at_zero_magic :
    analyzeHeader BBdata = some BBinfo ∧ BBinfo.magic_offset = some 0 ∧
    BBinfo.data_section_offset = none ∧ BBinfo.data_section_offset ≠ some 8 := by
  decide

/-- **C5 amended.** When the magic sentinel is located at offset `m`,
the header satisfies `table_length = m − 4` and `payload length =
len(bytes) − m − 8`; the payload offset equals `m + 8` whenever
`m ≠ 0` but is reported as `None` when `m = 0`; and `row_count = 0`
yields `record_length = 0`. -/
theorem header_field_equations (data : List Nat) (info : HeaderInfo) (m : Nat)
    (hh : analyzeHeader data = some info) (hm : info.magic_offset = some m) :
    info.table_length = some ((m : Int) - 4) ∧
    info.data_section_size = some ((data.length : Int) - m - 8) ∧
    (m ≠ 0 → info.data_section_offset = some (m + 8)) ∧
    (m = 0 → info.data_section_offset = none) ∧
    (info.row_count = 0 → info.record_length = some 0) := by
  obtain ⟨-, -, -, h4, h5, h6, h7⟩ := analyzeHeader_magic_some hh hm
  refine ⟨h4, h7, ?_, ?_, ?_⟩
  · intro hm0
    rw [h6, if_pos hm0]
  · intro hm0
    rw [h6, if_neg (by simp [hm0])]
  · intro hrc
    rw [h5, if_neg (by omega)]

/-- Witness for C5 amended at the zero-row file `W5` (magic at 4,
`row_count = 0`). -/
theorem header_field_equations_witness :
    analyzeHeader W5 = some W5info ∧ W5info.magic_offset = some 4 ∧
    (W5info.table_length = some (((4 : Nat) : Int) - 4) ∧
     W5info.data_section_size = some ((W5.length : Int) - (4 : Nat) - 8) ∧
     ((4 : Nat) ≠ 0 → W5info.data_section_offset = some (4 + 8)) ∧
     ((4 : Nat) = 0 → W5info.data_section_offset = none) ∧
     (W5info.row_count = 0 → W5info.record_length = some 0)) := by
  exact ⟨by decide, by decide, header_field_equations W5 W5info 4 (by decide) (by decide)⟩

/-! ## Claim C1 -/

/-- **C1 counterexample.** A buffer with `row_count = 3` and a 10-byte
table (remainder 1) does *not* fail: `analyze_header` returns a header
with `record_length = 10 // 3 = 3`, and `3 × 3 ≠ 10`.  The source has
no `MisalignedTable` check (line 82). -/
theorem misalignedTable_returns_header :
    analyzeHeader W1 = some W1info ∧ W1info.row_count = 3 ∧
    W1info.table_length = some 10 ∧ W1info.record_length = some 3 ∧
    (3 : Int) * 3 ≠ 10 := by
  decide

/-- **C1 amended.** No misalignment check is performed: whenever the
magic is located and `row_count > 0`, a header is returned with
`record_length = table_length // row_count` (Python floor division),
so for a well-placed magic (`magic_offset ≥ 4`) only the floor-division
bounds hold: `record_length × row_count ≤ table_length <
(record_length + 1) × row_count`, with equality exactly when the
division is exact. -/
theorem record_length_is_floor_div (data : List Nat) (info : HeaderInfo)
    (m : Nat) (hh : analyzeHeader data = some info)
    (hm : info.magic_offset = some m) (hrc : 0 < info.row_count) :
    info.record_length = some (((m : Int) - 4).fdiv info.row_count) ∧
    ((4 : Int) ≤ (m : Int) →
      ((m : Int) - 4).fdiv info.row_count * info.row_count ≤ (m : Int) - 4 ∧
      (m : Int) - 4 <
        (((m : Int) - 4).fdiv info.row_count + 1) * info.row_count) := by
  obtain ⟨-, -, -, -, h5, -, -⟩ := analyzeHeader_magic_some hh hm
  constructor
  · rw [h5, if_pos hrc]
  · intro hm4
    have hb0 : (0 : Int) < (info.row_count : Int) := by exact_mod_cast hrc
    rw [Int.fdiv_eq_ediv _ (le_of_lt hb0)]
    have hmod := Int.ediv_add_emod ((m : Int) - 4) (info.row_count : Int)
    have hnn := Int.emod_nonneg ((m : Int) - 4) (ne_of_gt hb0)
    have hlt := Int.emod_lt_of_pos ((m : Int) - 4) hb0
    constructor
    · nlinarith [hmod, hnn]
    · nlinarith [hmod, hlt]

/-- Witness for C1 amended at `W1`: `record_length = fdiv 10 3 = 3`,
and `3 * 3 ≤ 10 < 4 * 3`. -/
theorem record_length_is_floor_div_witness :
    analyzeHeader W1 = some W1info ∧ W1info.magic_offset = some 14 ∧
    0 < W1info.row_count ∧
    (W1info.record_length = some ((((14 : Nat) : Int) - 4).fdiv W1info.row_count) ∧
     ((4 : Int) ≤ ((14 : Nat) : Int) →
       (((14 : Nat) : Int) - 4).fdiv W1info.row_count * W1info.row_count ≤
         ((14 : Nat) : Int) - 4 ∧
       ((14 : Nat) : Int) - 4 <
         ((((14 : Nat) : Int) - 4).fdiv W1info.row_count + 1) * W1info.row_count)) := by
  exact ⟨by decide, by decide, by decide,
    record_length_is_floor_div W1 W1info 14 (by decide) (by decide) (by decide)⟩

/-! ## Claim C6 -/

/-- **C6.** During heuristic inference, every reported entry carries the
8-byte little-endian value `v` read at its stride, and it is classified
as a pointer kind (list pointer, or string/data pointer) exactly when
`0 < v < data_section_size`; otherwise it is a null or scalar entry,
never a pointer. -/
theorem pointer_candidate_iff_in_range (fr ds : List Nat) (dss rl : Int)
    (t : List (Nat × Classification)) (p : Nat × Classification)
    (h : inferLoop fr ds dss rl 0 = some t) (hp : p ∈ t) :
    readLE? fr p.1 8 = some (classValue p.2) ∧
    (isPointerClass p.2 = true ↔
      (0 < classValue p.2 ∧ ((classValue p.2 : Nat) : Int) < dss)) := by
  obtain ⟨-, h2, h3, -, -⟩ := inferLoop_mem 0 h p hp
  exact ⟨h2, h3⟩

/-- Witness for C6: the record `[5,0,…]` with `data_section_size = 10`
produces one pointer entry, and the iff holds at it. -/
theorem pointer_candidate_iff_in_range_witness :
    inferLoop C6row [] 10 8 0 = some [(0, Classification.pointer 5)] ∧
    (0, Classification.pointer 5) ∈ [(0, Classification.pointer 5)] ∧
    (readLE? C6row 0 8 = some (classValue (Classification.pointer 5)) ∧
     (isPointerClass (Classification.pointer 5) = true ↔
       (0 < classValue (Classification.pointer 5) ∧
        ((classValue (Classification.pointer 5) : Nat) : Int) < 10))) := by
  have h : inferLoop C6row [] 10 8 0 = some [(0, Classification.pointer 5)] := by
    simp [inferLoop, strideStep, readLE?, bytesLE, nullPatterns, listPreview, C6row]
  exact ⟨h, List.mem_singleton_self _,
    pointer_candidate_iff_in_range C6row [] 10 8 _ _ h (List.mem_singleton_self _)⟩

/-! ## Claim C10 -/

/-- **C10.** The pointer test (line 161) is applied before the null
test (line 164): an entry is reported sentinel-null only when its value
is one of the hardcoded null-marker patterns *and* lies outside the
pointer range `0 < v < data_section_size`.  Contrapositive: an in-range
value — e.g. `v = 0xA6` in a file with `data_section_size > 166` — is
never reported as null. -/
theorem null_only_out_of_pointer_range (fr ds : List Nat) (dss rl : Int)
    (t : List (Nat × Classification)) (off v : Nat)
    (h : inferLoop fr ds dss rl 0 = some t)
    (hmem : (off, Classification.nullVal v) ∈ t) :
    v ∈ nullPatterns ∧ ¬(0 < v ∧ (v : Int) < dss) := by
  obtain ⟨-, -, -, h4, -⟩ := inferLoop_mem 0 h _ hmem
  exact h4 v rfl

/-- Witness for C10: `0xA6` with `data_section_size = 100` (out of
range, so the null branch is reached) is reported null, and the theorem
applies to that entry. -/
theorem null_only_out_of_pointer_range_witness :
    inferLoop C10row [] 100 8 0 = some [(0, Classification.nullVal 0xA6)] ∧
    (0, Classification.nullVal 0xA6) ∈ [(0, Classification.nullVal 0xA6)] ∧
    (0xA6 ∈ nullPatterns ∧ ¬(0 < 0xA6 ∧ ((0xA6 : Nat) : Int) < 100)) := by
  have h : inferLoop C10row [] 100 8 0 = some [(0, Classification.nullVal 0xA6)] := by
    simp [inferLoop, strideStep, readLE?, bytesLE, nullPatterns, listPreview, C10row]
  exact ⟨h, List.mem_singleton_self _,
    null_only_out_of_pointer_range C10row [] 100 8 _ 0 0xA6 h
      (List.mem_singleton_self _)⟩

/-! ## Claim C3 -/

/-- **C3 (code bug).** On a 24-byte first record `(8, 16, 5)` with
`data_section_size = 200`, after the list-pointer candidate
`(count=8, offset=16)` is reported at offset 0, the loop examines
offset 8 — the *offset half* of that pair — as its own column (and
reports another list pointer there): the list-pointer branch runs
`offset += 8; continue` (lines 180–182), whose `continue` skips the
shared `offset += 8` of line 218, so despite its comment "Advance past
both values" the net advance is 8 bytes, not the 16 the spec states.
The trace's offsets are `[0, 8, 16]`, not `[0, 16]`. -/
theorem list_pointer_net_advance_is_eight :
    inferLoop C3row (List.replicate 200 0) 200 24 0 =
      some [(0, Classification.listPointer 8 16 (some (List.replicate 64 0))),
            (8, Classification.listPointer 16 5 (some (List.replicate 64 0))),
            (16, Classification.pointer 5)] ∧
    List.map Prod.fst
      [(0, Classification.listPointer 8 16 (some (List.replicate 64 0))),
       (8, Classification.listPointer 16 5 (some (List.replicate 64 0))),
       (16, Classification.pointer 5)] = [0, 8, 16] := by
  constructor
  · simp [inferLoop, strideStep, readLE?, bytesLE, nullPatterns, listPreview, C3row]
  · rfl

/-! ## Claim C7 -/

/-- **C7.** For every first record that begins with the 8 bytes
`08 00 00 00 00 00 00 00` followed by 8 bytes encoding a value `x` with
`0 < x < data_section_size`, when `record_length ≥ 16` and
`data_section_size > 8` (and the record really has `record_length`
bytes), inference classifies the pair as a list-pointer candidate with
`count = 8` and `offset = x` at offset 0. -/
theorem list_pointer_count_eight (fr ds : List Nat) (dss rl : Int) (x : Nat)
    (h1 : fr.take 8 = [8, 0, 0, 0, 0, 0, 0, 0])
    (h2 : readLE? fr 8 8 = some x)
    (hx1 : 0 < x) (hx2 : (x : Int) < dss)
    (hrl : (16 : Int) ≤ rl) (hdss : (8 : Int) < dss)
    (hlen : rl ≤ (fr.length : Int)) :
    ∃ pv rest, inferLoop fr ds dss rl 0 =
      some ((0, Classification.listPointer 8 x pv) :: rest) := by
  have hv : readLE? fr 0 8 = some 8 := by
    unfold readLE?
    rw [List.drop_zero, h1]
    decide
  have hstep : strideStep fr ds dss rl 0 =
      some (some (Classification.listPointer 8 x (listPreview ds dss 8 x))) := by
    unfold strideStep
    rw [if_pos (by push_cast; omega : ((0 : Nat) : Int) + 8 ≤ rl), hv]
    dsimp only
    rw [if_pos ⟨by norm_num, by exact_mod_cast hdss⟩]
    rw [if_pos (by push_cast; omega : ((0 : Nat) : Int) + 16 ≤ rl)]
    rw [show (0 + 8 : Nat) = 8 from rfl, h2]
    dsimp only
    rw [if_pos ⟨hx1, hx2⟩]
  obtain ⟨t, ht⟩ := inferLoop_isSome fr ds dss rl hlen 8
  refine ⟨listPreview ds dss 8 x, t, ?_⟩
  rw [inferLoop]
  rw [if_pos (by push_cast; omega : ((0 : Nat) : Int) < rl), hstep]
  dsimp only
  rw [show (0 + 8 : Nat) = 8 from rfl, ht]
  rfl

/-- Witness for C7: the 16-byte record `08 00 … | 03 00 …` with
`data_section_size = 100` and `record_length = 16`. -/
theorem list_pointer_count_eight_witness :
    C7row.take 8 = [8, 0, 0, 0, 0, 0, 0, 0] ∧
    readLE? C7row 8 8 = some 3 ∧
    (0 < 3 ∧ ((3 : Nat) : Int) < 100) ∧
    ((16 : Int) ≤ 16 ∧ (8 : Int) < 100 ∧ (16 : Int) ≤ (C7row.length : Int)) ∧
    (∃ pv rest, inferLoop C7row [] 100 16 0 =
      some ((0, Classification.listPointer 8 3 pv) :: rest)) := by
  exact ⟨by decide, by decide, ⟨by decide, by decide⟩,
    ⟨by decide, by decide, by decide⟩,
    list_pointer_count_eight C7row [] 100 16 3 (by decide) (by decide)
      (by decide) (by decide) (by decide) (by decide) (by decide)⟩

/-! ## Claim C8 -/

/-- **C8.** For every byte buffer in which the magic sentinel is
located with a positive `record_length`, `infer_column_types` runs to
completion without raising (every read it performs is in bounds), its
trace covers exactly the loop's 8-byte strides, and every stride value
that is neither a pointer candidate nor a matched null pattern is
reported as a scalar whose two extra components are the value's 32-bit
halves (the `u32` values of lines 213–214). -/
theorem infer_total_scalar_fallback (data : List Nat) (info : HeaderInfo)
    (m : Nat) (rl : Int)
    (hB : ∀ b ∈ data, b < 256)
    (hh : analyzeHeader data = some info)
    (hm : info.magic_offset = some m)
    (hr : info.record_length = some rl) (hpos : 0 < rl) :
    ∃ t, inferColumnTypes data info = InferResult.report t ∧
      t.map Prod.fst = strideOffsets rl 0 ∧
      ∀ p ∈ t,
        ¬(0 < classValue p.2 ∧
            ((classValue p.2 : Nat) : Int) < (data.length : Int) - m - 8) →
        classValue p.2 ∉ nullPatterns →
        p.2 = Classification.scalar (classValue p.2)
          (classValue p.2 % 2 ^ 32) (classValue p.2 / 2 ^ 32) := by
  obtain ⟨hfind, hrcread, hfs, htl, hrl, hdso, hdss⟩ := analyzeHeader_magic_some hh hm
  rw [hr] at hrl
  have hrleq := Option.some_injective _ hrl
  have hrcpos : 0 < info.row_count := by
    by_contra h0
    rw [if_neg h0] at hrleq
    omega
  rw [if_pos hrcpos] at hrleq
  have hb0 : (0 : Int) < (info.row_count : Int) := by exact_mod_cast hrcpos
  have hm4 : (4 : Int) < (m : Int) := by
    by_contra hle
    push_neg at hle
    rw [Int.fdiv_eq_ediv _ (le_of_lt hb0)] at hrleq
    have hmod := Int.ediv_add_emod ((m : Int) - 4) (info.row_count : Int)
    have hnn := Int.emod_nonneg ((m : Int) - 4) (ne_of_gt hb0)
    have hq : 0 < ((m : Int) - 4) / (info.row_count : Int) := by omega
    have hbq := mul_pos hb0 hq
    linarith [hmod, hnn, hbq, hle]
  have hrl_le : rl ≤ (m : Int) - 4 := by
    rw [hrleq, Int.fdiv_eq_ediv _ (le_of_lt hb0)]
    exact Int.ediv_le_self _ (by omega)
  have hmlen : m + 8 ≤ data.length := magic_bound (bytesFind_some hfind).1
  have hfr_len :
      rl ≤ (((pyTakeTo ((data.drop 4).take (m - 4)) rl).length : Nat) : Int) := by
    unfold pyTakeTo
    rw [if_pos (le_of_lt hpos)]
    simp only [List.length_take, List.length_drop]
    omega
  obtain ⟨t, ht⟩ := inferLoop_isSome (pyTakeTo ((data.drop 4).take (m - 4)) rl)
    (data.drop (m + 8)) ((data.length : Int) - m - 8) rl hfr_len 0
  have hres : inferColumnTypes data info = InferResult.report t := by
    unfold inferColumnTypes
    rw [hm, hr]
    dsimp only
    rw [if_neg (by push_neg; constructor <;> omega)]
    rw [hdss]
    dsimp only
    rw [hdso, if_pos (show m ≠ 0 by omega)]
    simp only [Option.getD_some]
    rw [ht]
  refine ⟨t, hres, inferLoop_map_fst 0 ht, ?_⟩
  intro p hp hnr hnn
  obtain ⟨-, hread, hiff, hnull, hscalar⟩ := inferLoop_mem 0 ht p hp
  have hnp : isPointerClass p.2 = false := by
    rcases hbp : isPointerClass p.2
    · rfl
    · exact absurd (hiff.1 hbp) hnr
  rcases hc : p.2 with ⟨a, b, pv⟩ | v | v | ⟨v, lo, hi⟩
  · rw [hc] at hnp
    simp [isPointerClass] at hnp
  · rw [hc] at hnp
    simp [isPointerClass] at hnp
  · have hvn := (hnull v hc).1
    rw [hc] at hnn
    simp only [classValue] at hnn
    exact absurd hvn hnn
  · obtain ⟨-, -, hlo, hhi⟩ := hscalar v lo hi hc
    have hBfr : ∀ b ∈ pyTakeTo ((data.drop 4).take (m - 4)) rl, b < 256 := by
      intro b hb
      apply hB
      have h1 : b ∈ (data.drop 4).take (m - 4) := by
        unfold pyTakeTo at hb
        split at hb
        · exact List.take_subset _ _ hb
        · exact List.take_subset _ _ hb
      exact List.drop_subset _ _ (List.take_subset _ _ h1)
    obtain ⟨hlo', hhi'⟩ := readLE?_split hBfr hread
    simp only [hc, classValue] at hlo' hhi' ⊢
    rw [hlo] at hlo'
    rw [hhi] at hhi'
    injection hlo' with hlo2
    injection hhi' with hhi2
    rw [hlo2, hhi2]

/-- Witness for C8 at the whole file `W8` (two 16-byte records, payload
16 bytes): inference reports a scalar `0x101` and a null at strides 0
and 8. -/
theorem infer_total_scalar_fallback_witness :
    (∀ b ∈ W8, b < 256) ∧ analyzeHeader W8 = some W8info ∧
    W8info.magic_offset = some 36 ∧ W8info.record_length = some 16 ∧
    (0 : Int) < 16 ∧
    (∃ t, inferColumnTypes W8 W8info = InferResult.report t ∧
      t.map Prod.fst = strideOffsets 16 0 ∧
      ∀ p ∈ t,
        ¬(0 < classValue p.2 ∧
            ((classValue p.2 : Nat) : Int) < (W8.length : Int) - (36 : Nat) - 8) →
        classValue p.2 ∉ nullPatterns →
        p.2 = Classification.scalar (classValue p.2)
          (classValue p.2 % 2 ^ 32) (classValue p.2 / 2 ^ 32)) := by
  exact ⟨by decide, by decide, by decide, by decide, by decide,
    infer_total_scalar_fallback W8 W8info 36 16 (by decide) (by decide)
      (by decide) (by decide) (by decide)⟩

/-! ## Claim C9 -/

/-- **C9.** For every byte buffer, offset, length and positive width,
`hexdump` produces its text while accessing no index at or beyond
`len(data)` — the dump window is clamped at
`min(offset + length, len(data))`, and within it every read succeeds,
so the whole dump is `some` — and each rendered byte `b` appears in the
ASCII column as `chr(b)` when `32 ≤ b < 127` and as `'.'` otherwise. -/
theorem hexdump_safe_and_ascii (data : List Nat) (offset length width : Nat)
    (_hw : 0 < width) :
    (hexdump data offset length width).isSome ∧
    ∀ i j b, i + j < min (offset + length) data.length →
      data[i + j]? = some b →
      hexdumpCell data (min (offset + length) data.length) i j =
        some (hexByte b ++ " ",
          if 32 ≤ b ∧ b < 127 then String.mk [Char.ofNat b] else ".") := by
  constructor
  · unfold hexdump
    have hend : min (offset + length) data.length ≤ data.length :=
      Nat.min_le_right _ _
    have hall := mapM_option_isSome
      (fun i => hexdumpRow data (min (offset + length) data.length) i width)
      (rangeStep offset (min (offset + length) data.length) width)
      fun i _ => hexdumpRow_isSome i width hend
    dsimp only
    rcases hmap : (rangeStep offset (min (offset + length) data.length) width).mapM
        (fun i => hexdumpRow data (min (offset + length) data.length) i width)
      with _ | lines
    · rw [hmap] at hall
      cases hall
    · rfl
  · intro i j b hij hb
    unfold hexdumpCell
    rw [if_pos hij, hb]

/-- Witness for C9 at the buffer `[72, 200, 10]`, offset 0, length 16,
width 4 (the window clamps to the 3 available bytes). -/
theorem hexdump_safe_and_ascii_witness :
    0 < 4 ∧
    ((hexdump C9buf 0 16 4).isSome ∧
     ∀ i j b, i + j < min (0 + 16) C9buf.length →
       C9buf[i + j]? = some b →
       hexdumpCell C9buf (min (0 + 16) C9buf.length) i j =
         some (hexByte b ++ " ",
           if 32 ≤ b ∧ b < 127 then String.mk [Char.ofNat b] else ".")) := by
  exact ⟨by decide, hexdump_safe_and_ascii C9buf 0 16 4 (by decide)⟩

end Datc64
